import Mathlib

/-!
Verification development for the NSBS course platform
(enrollment → lesson progress → exam attempt → certification core).

The persisted contract is `src/schema.prisma`; it is embedded twice:
as declarative data (`schemaModels`, for claims about which models,
columns and unique constraints exist) and as row-level state (`DB`,
for claims about the behavior of operations over that state).
Operations present under `src/` (the transaction retry helper of
`src/lib/prisma.ts`, the client answer updater of
`src/hooks/useExamState.ts`, the seeding path of the course importer)
are translated directly.  The API route handlers (webhook processing,
lesson completion, exam start/submit, certificate issuance) are not
under `src/`; where a claim depends on them they are modelled from the
spec, and each such definition says so in its doc comment.
-/

namespace Zipped

/-- A column set required to be unique, as declared by `@id`, `@unique`
or `@@unique` in `src/schema.prisma`. -/
abbrev UniqueKey := List String

/-- One Prisma model of `src/schema.prisma`: its name, its columns
(scalar and foreign-key columns; relation object fields are not
columns), and its unique column sets. -/
structure ModelSpec where
  name : String
  fields : List String
  uniques : List UniqueKey
deriving Repr, DecidableEq

/-- The complete list of models declared in `src/schema.prisma`,
transcribed model by model. -/
def schemaModels : List ModelSpec := [
  { name := "User",
    fields := ["id", "name", "email", "emailVerified", "image",
               "createdAt", "updatedAt", "role"],
    uniques := [["id"], ["email"]] },
  { name := "Account",
    fields := ["id", "userId", "type", "provider", "providerAccountId",
               "refresh_token", "access_token", "expires_at", "token_type",
               "scope", "id_token", "session_state"],
    uniques := [["id"], ["provider", "providerAccountId"]] },
  { name := "Session",
    fields := ["id", "sessionToken", "userId", "expires"],
    uniques := [["id"], ["sessionToken"]] },
  { name := "Course",
    fields := ["id", "title", "description", "courseAcronym", "price",
               "createdAt", "updatedAt", "moduleCount", "lessonCount"],
    uniques := [["id"], ["courseAcronym"]] },
  { name := "Module",
    fields := ["id", "title", "description", "moduleNumber",
               "createdAt", "updatedAt", "courseId"],
    uniques := [["id"], ["courseId", "moduleNumber"]] },
  { name := "Lesson",
    fields := ["id", "title", "overview", "content", "keywords",
               "lessonNumber", "createdAt", "updatedAt", "moduleId", "courseId"],
    uniques := [["id"], ["moduleId", "lessonNumber"]] },
  { name := "Enrollment",
    fields := ["id", "enrolledAt", "lastAccessedAt", "userId", "courseId"],
    uniques := [["id"], ["userId", "courseId"]] },
  { name := "LessonProgress",
    fields := ["id", "completedAt", "enrollmentId", "lessonId"],
    uniques := [["id"], ["enrollmentId", "lessonId"]] },
  { name := "ExamQuestion",
    fields := ["id", "questionText", "optionA", "optionB", "optionC",
               "optionD", "correctOption", "createdAt", "updatedAt", "courseId"],
    uniques := [["id"]] },
  { name := "ExamAttempt",
    fields := ["id", "startedAt", "completedAt", "score", "isPassed",
               "isPurchased", "enrollmentId"],
    uniques := [["id"]] },
  { name := "ExamAnswer",
    fields := ["id", "selectedOption", "isCorrect", "examAttemptId", "questionId"],
    uniques := [["id"], ["examAttemptId", "questionId"]] },
  { name := "Certificate",
    fields := ["id", "certificateId", "issuedAt", "enrollmentId"],
    uniques := [["id"], ["certificateId"], ["enrollmentId"]] }
]

/-- Whether `src/schema.prisma` declares a model with the given name. -/
def hasModel (n : String) : Bool :=
  schemaModels.any (fun m => m.name == n)

/-- The columns of the named model (empty when the model does not exist). -/
def modelFields (n : String) : List String :=
  ((schemaModels.find? (fun m => m.name == n)).map ModelSpec.fields).getD []

/-- Whether the named model has the named column. -/
def modelHasField (n f : String) : Bool :=
  (modelFields n).contains f

/-- Whether the named model declares the given unique column set. -/
def modelHasUnique (n : String) (k : UniqueKey) : Bool :=
  (((schemaModels.find? (fun m => m.name == n)).map ModelSpec.uniques).getD []).contains k

/-! ## Row-level state

One structure per application model of `src/schema.prisma`, fields as in
the schema (identifiers and enumerated options as `String`, timestamps
as `Nat`, nullable columns as `Option`). -/

/-- A row of the Enrollment table.  Note the schema gives Enrollment no
status column: its columns are exactly id, enrolledAt, lastAccessedAt,
userId and courseId. -/
structure EnrollmentRow where
  id : String
  enrolledAt : Nat
  lastAccessedAt : Nat
  userId : String
  courseId : String
deriving Repr, DecidableEq

/-- A row of the LessonProgress table. -/
structure LessonProgressRow where
  id : String
  completedAt : Nat
  enrollmentId : String
  lessonId : String
deriving Repr, DecidableEq

/-- A row of the ExamQuestion table. -/
structure ExamQuestionRow where
  id : String
  questionText : String
  optionA : String
  optionB : String
  optionC : String
  optionD : String
  correctOption : String
  courseId : String
deriving Repr, DecidableEq

/-- A row of the ExamAttempt table.  The schema stores no attemptNumber,
no voucher reference and no frozen question set; extra purchased
attempts are only flagged by `isPurchased`. -/
structure ExamAttemptRow where
  id : String
  startedAt : Nat
  completedAt : Option Nat
  score : Option Nat
  isPassed : Option Bool
  isPurchased : Bool
  enrollmentId : String
deriving Repr, DecidableEq

/-- A row of the ExamAnswer table. -/
structure ExamAnswerRow where
  id : String
  selectedOption : String
  isCorrect : Bool
  examAttemptId : String
  questionId : String
deriving Repr, DecidableEq

/-- A row of the Certificate table. -/
structure CertificateRow where
  id : String
  certificateId : String
  issuedAt : Nat
  enrollmentId : String
deriving Repr, DecidableEq

/-- The application tables of the ledger store. -/
structure DB where
  enrollments : List EnrollmentRow
  lessonProgress : List LessonProgressRow
  examQuestions : List ExamQuestionRow
  examAttempts : List ExamAttemptRow
  examAnswers : List ExamAnswerRow
  certificates : List CertificateRow
deriving Repr, DecidableEq

/-- The empty database. -/
def DB.empty : DB := ⟨[], [], [], [], [], []⟩

/-- `distinctBy key l` holds when no two entries of `l` share a key:
the list-level reading of a unique constraint on that key. -/
def distinctBy {α β : Type} [BEq β] (key : α → β) : List α → Bool
  | [] => true
  | x :: xs => !(xs.any (fun y => key y == key x)) && distinctBy key xs

/-- Number of entries satisfying a predicate. -/
def countMatching {α : Type} (q : α → Bool) (l : List α) : Nat :=
  (l.filter q).length

/-- The unique constraints `src/schema.prisma` imposes on the
application tables, read over the row-level state. -/
def DB.wf (db : DB) : Bool :=
  distinctBy (fun r => r.id) db.enrollments &&
  distinctBy (fun r => (r.userId, r.courseId)) db.enrollments &&
  distinctBy (fun r => r.id) db.lessonProgress &&
  distinctBy (fun r => (r.enrollmentId, r.lessonId)) db.lessonProgress &&
  distinctBy (fun r => r.id) db.examQuestions &&
  distinctBy (fun r => r.id) db.examAttempts &&
  distinctBy (fun r => r.id) db.examAnswers &&
  distinctBy (fun r => (r.examAttemptId, r.questionId)) db.examAnswers &&
  distinctBy (fun r => r.id) db.certificates &&
  distinctBy (fun r => r.certificateId) db.certificates &&
  distinctBy (fun r => r.enrollmentId) db.certificates

/-! ## Client-side types and operations present under `src/` -/

/-- The `EnrollmentStatus` union of `src/types/enrollment.ts`: the four
values the client-side Enrollment type ranges over. -/
inductive EnrollmentStatus where
  | active
  | completed
  | cancelled
  | expired
deriving Repr, DecidableEq

/-- A user answer as in `UserExamAnswer` of `src/types/exam.ts`
(re-exported through `src/useRBAC.ts`). -/
structure UserExamAnswer where
  questionId : String
  selectedOptionId : String
deriving Repr, DecidableEq

/-- `Array.findIndex` as used by `updateAnswer` in
`src/hooks/useExamState.ts`: index of the first match, `-1` when none. -/
def findIndexJs {α : Type} (p : α → Bool) : List α → Int
  | [] => -1
  | x :: xs =>
    if p x then 0
    else
      let r := findIndexJs p xs
      if r < 0 then -1 else r + 1

/-- `updateAnswer` from `src/hooks/useExamState.ts`: if an answer for
the question already exists it is replaced in place, otherwise the new
answer is appended. -/
def updateAnswer (prevAnswers : List UserExamAnswer)
    (questionId selectedOptionId : String) : List UserExamAnswer :=
  let existingAnswerIndex := findIndexJs (fun ans => ans.questionId == questionId) prevAnswers
  if existingAnswerIndex > -1 then
    prevAnswers.set existingAnswerIndex.toNat ⟨questionId, selectedOptionId⟩
  else
    prevAnswers ++ [⟨questionId, selectedOptionId⟩]

/-- Inputs of `checkVoucherPurchaseEligibility` in
`src/hooks/useEnrollment.ts`: the fields of the client Enrollment
object the function reads. -/
structure VoucherEligibilityInput where
  hasProgress : Bool
  allLessonsCompleted : Bool
  examAttemptsCount : Option Nat
  canPurchaseVoucher : Option Bool
deriving Repr, DecidableEq

/-- `checkVoucherPurchaseEligibility` from `src/hooks/useEnrollment.ts`:
eligible only when progress data is present, all lessons are completed,
at least 2 (the base quota) attempts were made, and the backend flag
does not forbid the purchase. -/
def checkVoucherPurchaseEligibility (enrollment : Option VoucherEligibilityInput) : Bool :=
  match enrollment with
  | none => false
  | some e =>
    if !e.hasProgress then false
    else
      let maxInitialAttempts := 2
      let attemptsMade := e.examAttemptsCount.getD 0
      let allLessonsCompleted := e.allLessonsCompleted
      allLessonsCompleted && decide (attemptsMade ≥ maxInitialAttempts)
        && (e.canPurchaseVoucher.getD true)

/-! ## Transaction retry helper (`executeTransaction` in `src/lib/prisma.ts`) -/

/-- The Prisma error codes `executeTransaction` treats as temporary:
connection error, timeout error, operation timeout, server closed
connection. -/
def retryableCodes : List String := ["P1001", "P1002", "P1008", "P1017"]

/-- The retryability test of `executeTransaction` in `src/lib/prisma.ts`. -/
def isRetryable (code : String) : Bool :=
  code == "P1001" || code == "P1002" || code == "P1008" || code == "P1017"

/-- The retry loop of `executeTransaction` in `src/lib/prisma.ts`.
`trial i` is the outcome of the `(i+1)`-th call to
`prisma.$transaction` (ok, or the thrown error code); `i` counts the
failures so far, and `fuel = maxRetries - i` bounds the loop as the
source condition `retries >= maxRetries` does. -/
def executeTransactionGo {T : Type} (trial : Nat → Except String T)
    (maxRetries : Nat) : Nat → Nat → Except String T
  | i, fuel =>
    match trial i with
    | .ok v => .ok v
    | .error e =>
      match fuel with
      | 0 => .error e
      | fuel' + 1 =>
        if isRetryable e && i + 1 < maxRetries then
          executeTransactionGo trial maxRetries (i + 1) fuel'
        else
          .error e

/-- `executeTransaction` from `src/lib/prisma.ts`: run the transaction,
retry only on a retryable error code while `retries < maxRetries`,
otherwise rethrow the original error.  (The backoff delay does not
affect the outcome and is not modelled.) -/
def executeTransaction {T : Type} (trial : Nat → Except String T)
    (maxRetries : Nat) : Except String T :=
  executeTransactionGo trial maxRetries 0 maxRetries

/-! ## Grading -/

/-- Modelled from the spec: the grading step of `submitAttempt`
(`src/app/api/exam/submit/[attemptId]/route.ts` is not under `src/`).
The answer matching a question, if any. -/
def answerFor (answers : List UserExamAnswer) (qid : String) : Option UserExamAnswer :=
  answers.find? (fun a => a.questionId == qid)

/-- Modelled from the spec: a question is answered correctly when a
matching answer exists and selects the correct option; a missing answer
counts as incorrect, never as an error. -/
def isAnswerCorrect (q : ExamQuestionRow) (answers : List UserExamAnswer) : Bool :=
  match answerFor answers q.id with
  | some a => a.selectedOptionId == q.correctOption
  | none => false

/-- Modelled from the spec: the number of correctly answered questions
of the question set. -/
def correctCount (questions : List ExamQuestionRow) (answers : List UserExamAnswer) : Nat :=
  countMatching (fun q => isAnswerCorrect q answers) questions

/-- Modelled from the spec: `score = floor(100 × correctCount /
totalQuestions)`; natural division is the floor. -/
def computeScore (totalQuestions correct : Nat) : Nat :=
  100 * correct / totalQuestions

/-- The passing rule: `score ≥ 80`, as the schema comment on
`ExamAttempt.isPassed` states (`true if score >= 80`). -/
def isPassing (score : Nat) : Bool :=
  decide (score ≥ 80)

/-! ## Spec-modelled lifecycle operations

The API route handlers live outside `src/`
(`src/app/api/payments/webhook/route.ts`,
`src/app/api/lessons/complete/route.ts`,
`src/app/api/exam/start/[enrollmentId]/route.ts`,
`src/app/api/exam/submit/[attemptId]/route.ts` in the file-structure
document); each operation below is modelled from the spec, restricted
to the models `src/schema.prisma` actually declares. -/

/-- Outcome vocabulary of `processPaymentEvent` in the spec. -/
inductive Outcome where
  | applied
  | duplicate
  | rejected
deriving Repr, DecidableEq

/-- Modelled from the spec: the `course_purchase` branch of the payment
event processor, restricted to `src/schema.prisma` — the schema
declares no PaymentEventRecord model, so no dedupe-ledger insert is
possible and the only guard is the existence check backed by the unique
constraint on Enrollment `(userId, courseId)`: create the enrollment
when none exists for the pair, otherwise reject (already enrolled). -/
def processCoursePurchase (db : DB) (newId userId courseId : String)
    (now : Nat) : DB × Outcome :=
  if db.enrollments.any (fun e => e.userId == userId && e.courseId == courseId) then
    (db, .rejected)
  else
    ({ db with enrollments := ⟨newId, now, now, userId, courseId⟩ :: db.enrollments },
     .applied)

/-- Modelled from the spec: `markLessonComplete`
(`src/app/api/lessons/complete/route.ts` is not under `src/`):
idempotent insert of a LessonProgress row, keyed on
`(enrollmentId, lessonId)` as the schema's unique constraint demands;
when the row is already present nothing changes and `completedAt` is
not updated. -/
def markLessonComplete (db : DB) (newId enrollmentId lessonId : String)
    (now : Nat) : DB :=
  if db.lessonProgress.any (fun r => r.enrollmentId == enrollmentId && r.lessonId == lessonId) then
    db
  else
    { db with lessonProgress := ⟨newId, now, enrollmentId, lessonId⟩ :: db.lessonProgress }

/-- Modelled from the spec: `startAttempt`
(`src/app/api/exam/start/[enrollmentId]/route.ts` is not under
`src/`).  A new attempt starts unsubmitted — `completedAt`, `score` and
`isPassed` all null, as in the `ExamAttempt` model.  The
one-open-attempt guard of the spec is modelled; the lesson-eligibility
and quota gates only restrict when an attempt may start and do not
affect the certification claims settled here. -/
def startAttempt (db : DB) (newId enrollmentId : String) (now : Nat) :
    DB × Option ExamAttemptRow :=
  if !db.enrollments.any (fun e => e.id == enrollmentId) then
    (db, none)
  else if db.examAttempts.any (fun a => a.enrollmentId == enrollmentId && a.completedAt.isNone) then
    (db, none)
  else
    let row : ExamAttemptRow := ⟨newId, now, none, none, none, false, enrollmentId⟩
    ({ db with examAttempts := row :: db.examAttempts }, some row)

/-- Whether some attempt of the enrollment has passed. -/
def hasPassingAttempt (db : DB) (enrollmentId : String) : Bool :=
  db.examAttempts.any (fun a => a.enrollmentId == enrollmentId && a.isPassed == some true)

/-- Modelled from the spec: `issueIfEligible` of the Certificate Issuer
(not under `src/`): inside the transaction, return the existing
certificate of the enrollment unchanged when one exists; otherwise
insert one, but only for an enrollment with a passing attempt.  The
insert-or-fetch is backed by the unique constraint on
`Certificate.enrollmentId` in `src/schema.prisma`. -/
def issueIfEligible (db : DB) (newId newCertificateId enrollmentId : String)
    (now : Nat) : DB :=
  if db.certificates.any (fun c => c.enrollmentId == enrollmentId) then
    db
  else if hasPassingAttempt db enrollmentId then
    { db with certificates := ⟨newId, newCertificateId, now, enrollmentId⟩ :: db.certificates }
  else
    db

/-- Replace the first entry satisfying `p` by its image under `f`; the
list reading of an update keyed by a unique column. -/
def updateFirst {α : Type} (p : α → Bool) (f : α → α) : List α → List α
  | [] => []
  | x :: xs => if p x then f x :: xs else x :: updateFirst p f xs

/-- The grading update applied to the attempt row: `completedAt` from
null to now, `score` and `isPassed` set — the data clause of the
conditional update. -/
def gradeAttemptRow (score : Nat) (passed : Bool) (now : Nat)
    (b : ExamAttemptRow) : ExamAttemptRow :=
  { b with completedAt := some now, score := some score, isPassed := some passed }

/-- The ExamAnswer rows recorded for audit at submission, one per
submitted answer, graded against the question set. -/
def auditRows (attemptId : String) (questions : List ExamQuestionRow)
    (answers : List UserExamAnswer) : List ExamAnswerRow :=
  answers.map (fun ans =>
    ExamAnswerRow.mk (attemptId ++ ":" ++ ans.questionId) ans.selectedOptionId
      (match questions.find? (fun q => q.id == ans.questionId) with
       | some q => ans.selectedOptionId == q.correctOption
       | none => false)
      attemptId ans.questionId)

/-- Result vocabulary of `submitAttempt`. -/
inductive SubmitResult where
  | graded (score : Nat) (passed : Bool)
  | alreadySubmitted
  | notFound
deriving Repr, DecidableEq

/-- Modelled from the spec: `submitAttempt`
(`src/app/api/exam/submit/[attemptId]/route.ts` is not under `src/`).
Requires the attempt to exist with `completedAt` null (the schema's
column playing the spec's `submittedAt` role); grades the given
question set against the answers, conditionally updates the attempt —
`completedAt` from null to now, `score` and `isPassed` set — records
the answers for audit, and on a pass invokes the issuer.  The question
set is passed explicitly because `src/schema.prisma` stores no frozen
question set on the attempt row. -/
def submitAttempt (db : DB) (attemptId : String)
    (questions : List ExamQuestionRow) (answers : List UserExamAnswer)
    (certRowId certVerificationId : String) (now : Nat) : DB × SubmitResult :=
  match db.examAttempts.find? (fun a => a.id == attemptId) with
  | none => (db, .notFound)
  | some a =>
    match a.completedAt with
    | some _ => (db, .alreadySubmitted)
    | none =>
      let correct := correctCount questions answers
      let score := computeScore questions.length correct
      let passed := isPassing score
      let graded := updateFirst (fun b => b.id == attemptId)
        (gradeAttemptRow score passed now) db.examAttempts
      let audit := auditRows attemptId questions answers
      let db1 := { db with examAttempts := graded, examAnswers := audit ++ db.examAnswers }
      let db2 :=
        if passed then
          issueIfEligible db1 certRowId certVerificationId a.enrollmentId now
        else
          db1
      (db2, .graded score passed)

/-! ## Question-bank edits and the derived question view -/

/-- The question identifiers an existing attempt is joined to, via its
ExamAnswer rows — the only per-attempt question data
`src/schema.prisma` persists. -/
def attemptQuestionIds (db : DB) (attemptId : String) : List String :=
  (db.examAnswers.filter (fun ans => ans.examAttemptId == attemptId)).map
    (fun ans => ans.questionId)

/-- The question rows a historical attempt resolves to: a join of its
answer rows against the live ExamQuestion table — there is no snapshot
column to read instead. -/
def attemptQuestionView (db : DB) (attemptId : String) : List ExamQuestionRow :=
  db.examQuestions.filter (fun q => (attemptQuestionIds db attemptId).contains q.id)

/-- The course-import path of `src/metadata.ts`: re-seeding a course
first runs `examQuestion.deleteMany` for the course and then recreates
the questions; `onDelete: Cascade` on `ExamAnswer.question` in
`src/schema.prisma` removes the ExamAnswer rows of every attempt that
referenced a deleted question. -/
def reseedCourseQuestions (db : DB) (courseId : String)
    (newQuestions : List ExamQuestionRow) : DB :=
  let kept := db.examQuestions.filter (fun q => !(q.courseId == courseId))
  let keptAnswers := db.examAnswers.filter (fun a =>
    !(db.examQuestions.any (fun q => q.id == a.questionId && q.courseId == courseId)))
  { db with examQuestions := kept ++ newQuestions, examAnswers := keptAnswers }

/-! ## Reachable states of the modelled lifecycle -/

/-- One lifecycle operation applied to the ledger. -/
inductive Step : DB → DB → Prop where
  | coursePurchase (db : DB) (newId userId courseId : String) (now : Nat) :
      Step db (processCoursePurchase db newId userId courseId now).1
  | lessonComplete (db : DB) (newId enrollmentId lessonId : String) (now : Nat) :
      Step db (markLessonComplete db newId enrollmentId lessonId now)
  | start (db : DB) (newId enrollmentId : String) (now : Nat) :
      Step db (startAttempt db newId enrollmentId now).1
  | submit (db : DB) (attemptId : String) (questions : List ExamQuestionRow)
      (answers : List UserExamAnswer) (certRowId certVerificationId : String) (now : Nat) :
      Step db (submitAttempt db attemptId questions answers certRowId certVerificationId now).1
  | issue (db : DB) (newId newCertificateId enrollmentId : String) (now : Nat) :
      Step db (issueIfEligible db newId newCertificateId enrollmentId now)

/-- States reachable from the empty ledger by lifecycle operations. -/
inductive Reachable : DB → Prop where
  | empty : Reachable DB.empty
  | step {db db' : DB} : Reachable db → Step db db' → Reachable db'

/-- The certification invariant: at most one certificate per enrollment
(unique `enrollmentId`), grading is the only writer of `isPassed`
(an unsubmitted attempt carries no verdict), and a certificate exists
for an enrollment exactly when one of its attempts has passed. -/
def CertInv (db : DB) : Prop :=
  distinctBy (fun c => c.enrollmentId) db.certificates = true
  ∧ (∀ a ∈ db.examAttempts, a.completedAt = none → a.isPassed = none)
  ∧ (∀ e : String,
      (∃ c ∈ db.certificates, c.enrollmentId = e)
        ↔ (∃ a ∈ db.examAttempts, a.enrollmentId = e ∧ a.isPassed = some true))

/-! ## Concrete instances used by the claim theorems and witnesses -/

/-- A 100-question bank (fixed exam length), every question keyed
`q0 … q99` with correct option `A`. -/
def c5Questions : List ExamQuestionRow :=
  (List.range 100).map (fun i =>
    ⟨"q" ++ toString i, "question " ++ toString i, "Alpha", "Beta", "Gamma", "Delta", "A", "course1"⟩)

/-- Answers to the first 82 questions, all correct; the remaining 18
questions receive no answer. -/
def c5Answers : List UserExamAnswer :=
  (List.range 82).map (fun i => ⟨"q" ++ toString i, "A"⟩)

/-- The last question of `c5Questions`, which `c5Answers` leaves
unanswered. -/
def c5LastQuestion : ExamQuestionRow :=
  ⟨"q99", "question 99", "Alpha", "Beta", "Gamma", "Delta", "A", "course1"⟩

/-- A ledger state every constraint of `src/schema.prisma` accepts, in
which one enrollment has three submitted failing attempts and no
attempt is marked purchased. -/
def c4FailingDb : DB :=
  { enrollments := [⟨"enr1", 0, 0, "user1", "course1"⟩],
    lessonProgress := [],
    examQuestions := [],
    examAttempts := [
      ⟨"att1", 1, some 2, some 60, some false, false, "enr1"⟩,
      ⟨"att2", 3, some 4, some 70, some false, false, "enr1"⟩,
      ⟨"att3", 5, some 6, some 75, some false, false, "enr1"⟩],
    examAnswers := [],
    certificates := [] }

/-- A single exam question of course `course1`. -/
def c7Question : ExamQuestionRow :=
  ⟨"q1", "What is strategic planning?", "Alpha", "Beta", "Gamma", "Delta", "A", "course1"⟩

/-- A state with one submitted, passed attempt whose single answer
references `c7Question`. -/
def c7Db : DB :=
  { enrollments := [⟨"enr1", 0, 0, "user1", "course1"⟩],
    lessonProgress := [],
    examQuestions := [c7Question],
    examAttempts := [⟨"att1", 1, some 2, some 100, some true, false, "enr1"⟩],
    examAnswers := [⟨"ans1", "A", true, "att1", "q1"⟩],
    certificates := [] }

/-- A replacement question bank for course `course1`, as a course
re-import would create it. -/
def c7NewQuestion : ExamQuestionRow :=
  ⟨"q1b", "What is strategic planning?", "AlphaEdited", "Beta", "Gamma", "Delta", "B", "course1"⟩

/-- A state with one enrollment and one open (unsubmitted) attempt. -/
def c3Db : DB :=
  { enrollments := [⟨"enr1", 0, 0, "user1", "course1"⟩],
    lessonProgress := [],
    examQuestions := [c7Question],
    examAttempts := [⟨"att1", 1, none, none, none, false, "enr1"⟩],
    examAnswers := [],
    certificates := [] }

/-- A reachable state: purchase a course, start an attempt, submit a
fully correct answer set (score 100, passed). -/
def c2Db : DB :=
  (submitAttempt
    (startAttempt
      (processCoursePurchase DB.empty "enr1" "user1" "course1" 0).1
      "att1" "enr1" 1).1
    "att1" [c7Question] [⟨"q1", "A"⟩] "cert1" "VERIFY1" 2).1

/-! ## Helper lemmas -/

theorem distinctBy_cons {α β : Type} [BEq β] (key : α → β) (x : α) (xs : List α) :
    distinctBy key (x :: xs) = (!(xs.any (fun y => key y == key x)) && distinctBy key xs) :=
  rfl

theorem countMatching_cons {α : Type} (q : α → Bool) (x : α) (xs : List α) :
    countMatching q (x :: xs) = (if q x then 1 else 0) + countMatching q xs := by
  by_cases h : q x = true
  · simp [countMatching, List.filter_cons, h, Nat.add_comm]
  · simp [countMatching, List.filter_cons, h]

theorem countMatching_eq_zero {α : Type} {q : α → Bool} {l : List α}
    (h : l.any q = false) : countMatching q l = 0 := by
  have hall := List.any_eq_false.mp h
  simp only [countMatching, List.length_eq_zero, List.filter_eq_nil_iff]
  exact hall

theorem countMatching_pos {α : Type} {q : α → Bool} {l : List α}
    (h : l.any q = true) : 1 ≤ countMatching q l := by
  rcases List.any_eq_true.mp h with ⟨x, hx, hqx⟩
  have hm : x ∈ l.filter q := List.mem_filter.mpr ⟨hx, hqx⟩
  exact List.length_pos.mpr (List.ne_nil_of_mem hm)

theorem distinctBy_count_le_one {α β : Type} [BEq β] [LawfulBEq β]
    {key : α → β} {l : List α} (h : distinctBy key l = true) (k : β) :
    countMatching (fun x => key x == k) l ≤ 1 := by
  induction l with
  | nil => simp [countMatching]
  | cons x xs ih =>
    rw [distinctBy_cons, Bool.and_eq_true, Bool.not_eq_true'] at h
    obtain ⟨hany, hd⟩ := h
    rw [countMatching_cons]
    by_cases hx : (key x == k) = true
    · have hk : key x = k := eq_of_beq hx
      rw [hk] at hany
      have h0 : countMatching (fun y => key y == k) xs = 0 := countMatching_eq_zero hany
      simp [hx, h0]
    · simp only [hx, if_false]
      simpa using ih hd

theorem updateFirst_cons {α : Type} (p : α → Bool) (f : α → α) (x : α) (xs : List α) :
    updateFirst p f (x :: xs) =
      if p x then f x :: xs else x :: updateFirst p f xs :=
  rfl

theorem mem_updateFirst {α : Type} {p : α → Bool} {f : α → α} {l : List α} {y : α}
    (hy : y ∈ updateFirst p f l) :
    y ∈ l ∨ ∃ x, l.find? p = some x ∧ y = f x := by
  induction l with
  | nil => simp [updateFirst] at hy
  | cons x xs ih =>
    rw [updateFirst_cons] at hy
    by_cases hp : p x = true
    · rw [if_pos hp] at hy
      rcases List.mem_cons.mp hy with h | h
      · exact Or.inr ⟨x, List.find?_cons_of_pos _ hp, h⟩
      · exact Or.inl (List.mem_cons_of_mem _ h)
    · rw [if_neg hp] at hy
      rcases List.mem_cons.mp hy with h | h
      · exact Or.inl (h ▸ List.mem_cons_self x xs)
      · rcases ih h with h2 | ⟨z, hz, hyz⟩
        · exact Or.inl (List.mem_cons_of_mem _ h2)
        · exact Or.inr ⟨z, by rw [List.find?_cons_of_neg _ hp]; exact hz, hyz⟩

theorem find?_updateFirst_mem {α : Type} {p : α → Bool} {f : α → α} {l : List α} {a : α}
    (h : l.find? p = some a) : f a ∈ updateFirst p f l := by
  induction l with
  | nil => simp at h
  | cons x xs ih =>
    by_cases hp : p x = true
    · rw [List.find?_cons_of_pos _ hp] at h
      cases h
      rw [updateFirst_cons, if_pos hp]
      exact List.mem_cons_self _ _
    · rw [List.find?_cons_of_neg _ hp] at h
      rw [updateFirst_cons, if_neg hp]
      exact List.mem_cons_of_mem _ (ih h)

theorem mem_updateFirst_of_mem {α : Type} {p : α → Bool} {f : α → α} {l : List α} {y : α}
    (hy : y ∈ l) : y ∈ updateFirst p f l ∨ l.find? p = some y := by
  induction l with
  | nil => simp at hy
  | cons x xs ih =>
    by_cases hp : p x = true
    · rcases List.mem_cons.mp hy with h | h
      · exact Or.inr (by subst h; exact List.find?_cons_of_pos _ hp)
      · exact Or.inl (by rw [updateFirst_cons, if_pos hp]; exact List.mem_cons_of_mem _ h)
    · rcases List.mem_cons.mp hy with h | h
      · exact Or.inl (by rw [updateFirst_cons, if_neg hp]; exact h ▸ List.mem_cons_self x _)
      · rcases ih h with h2 | h2
        · exact Or.inl (by rw [updateFirst_cons, if_neg hp]; exact List.mem_cons_of_mem _ h2)
        · exact Or.inr (by rw [List.find?_cons_of_neg _ hp]; exact h2)

theorem find?_updateFirst {α : Type} {p : α → Bool} {f : α → α} {l : List α} {a : α}
    (h : l.find? p = some a) (hfa : p (f a) = true) :
    (updateFirst p f l).find? p = some (f a) := by
  induction l with
  | nil => simp at h
  | cons x xs ih =>
    by_cases hp : p x = true
    · rw [List.find?_cons_of_pos _ hp] at h
      cases h
      rw [updateFirst_cons, if_pos hp, List.find?_cons_of_pos _ hfa]
    · rw [List.find?_cons_of_neg _ hp] at h
      rw [updateFirst_cons, if_neg hp, List.find?_cons_of_neg _ hp]
      exact ih h

theorem hasPassingAttempt_iff {db : DB} {e : String} :
    hasPassingAttempt db e = true
      ↔ ∃ a ∈ db.examAttempts, a.enrollmentId = e ∧ a.isPassed = some true := by
  simp [hasPassingAttempt, List.any_eq_true, Bool.and_eq_true, beq_iff_eq]

theorem certGuard_iff {db : DB} {e : String} :
    (db.certificates.any (fun c => c.enrollmentId == e)) = true
      ↔ ∃ c ∈ db.certificates, c.enrollmentId = e := by
  simp [List.any_eq_true, beq_iff_eq]

theorem issueIfEligible_examAttempts (db : DB) (n v e : String) (t : Nat) :
    (issueIfEligible db n v e t).examAttempts = db.examAttempts := by
  unfold issueIfEligible
  split
  · rfl
  split <;> rfl

/-! ## Preservation of the certification invariant -/

theorem certInv_empty : CertInv DB.empty := by
  refine ⟨rfl, ?_, ?_⟩
  · intro a ha
    simp [DB.empty] at ha
  · intro e
    simp [DB.empty]

theorem certInv_processCoursePurchase (db : DB) (newId userId courseId : String)
    (now : Nat) (h : CertInv db) :
    CertInv (processCoursePurchase db newId userId courseId now).1 := by
  unfold processCoursePurchase
  split
  · exact h
  · exact h

theorem certInv_markLessonComplete (db : DB) (newId enrollmentId lessonId : String)
    (now : Nat) (h : CertInv db) :
    CertInv (markLessonComplete db newId enrollmentId lessonId now) := by
  unfold markLessonComplete
  split
  · exact h
  · exact h

theorem certInv_startAttempt (db : DB) (newId enrollmentId : String) (now : Nat)
    (h : CertInv db) : CertInv (startAttempt db newId enrollmentId now).1 := by
  obtain ⟨h1, h2, h3⟩ := h
  unfold startAttempt
  split
  · exact ⟨h1, h2, h3⟩
  split
  · exact ⟨h1, h2, h3⟩
  refine ⟨h1, ?_, ?_⟩
  · intro a ha hc
    rcases List.mem_cons.mp ha with rfl | ha2
    · rfl
    · exact h2 a ha2 hc
  · intro e
    constructor
    · intro hc
      rcases (h3 e).mp hc with ⟨a, ha, hae, hap⟩
      exact ⟨a, List.mem_cons_of_mem _ ha, hae, hap⟩
    · rintro ⟨a, ha, hae, hap⟩
      rcases List.mem_cons.mp ha with rfl | ha2
      · simp at hap
      · exact (h3 e).mpr ⟨a, ha2, hae, hap⟩

theorem certInv_issueIfEligible (db : DB) (n v e : String) (t : Nat)
    (h : CertInv db) : CertInv (issueIfEligible db n v e t) := by
  obtain ⟨h1, h2, h3⟩ := h
  by_cases hguard : (db.certificates.any (fun c => c.enrollmentId == e)) = true
  · rw [issueIfEligible, if_pos hguard]
    exact ⟨h1, h2, h3⟩
  · have hg : (db.certificates.any (fun c => c.enrollmentId == e)) = false := by
      revert hguard; cases db.certificates.any (fun c => c.enrollmentId == e) <;> simp
    by_cases hpass : hasPassingAttempt db e = true
    · rw [issueIfEligible, if_neg hguard, if_pos hpass]
      refine ⟨?_, h2, ?_⟩
      · rw [distinctBy_cons, Bool.and_eq_true, Bool.not_eq_true']
        exact ⟨hg, h1⟩
      · intro e2
        constructor
        · rintro ⟨c, hc, hce⟩
          rcases List.mem_cons.mp hc with rfl | hc2
          · exact hce ▸ hasPassingAttempt_iff.mp hpass
          · exact (h3 e2).mp ⟨c, hc2, hce⟩
        · intro hx
          rcases (h3 e2).mpr hx with ⟨c, hc, hce⟩
          exact ⟨c, List.mem_cons_of_mem _ hc, hce⟩
    · rw [issueIfEligible, if_neg hguard, if_neg hpass]
      exact ⟨h1, h2, h3⟩

theorem graded_verdictless {l : List ExamAttemptRow} (attemptId : String)
    (score : Nat) (passed : Bool) (now : Nat)
    (h2 : ∀ y ∈ l, y.completedAt = none → y.isPassed = none) :
    ∀ y ∈ updateFirst (fun b => b.id == attemptId) (gradeAttemptRow score passed now) l,
      y.completedAt = none → y.isPassed = none := by
  intro y hy hyc
  rcases mem_updateFirst hy with hmem | ⟨x, hx, rfl⟩
  · exact h2 y hmem hyc
  · simp [gradeAttemptRow] at hyc

theorem graded_keep {l : List ExamAttemptRow} {attemptId : String} {a : ExamAttemptRow}
    (score : Nat) (passed : Bool) (now : Nat)
    (hfind : l.find? (fun b => b.id == attemptId) = some a)
    (hap : a.isPassed = none) :
    ∀ b ∈ l, b.isPassed = some true →
      b ∈ updateFirst (fun x => x.id == attemptId) (gradeAttemptRow score passed now) l := by
  intro b hb hbp
  rcases mem_updateFirst_of_mem hb with hm | hm
  · exact hm
  · rw [hfind] at hm
    injection hm with hab
    subst hab
    rw [hap] at hbp
    exact Option.noConfusion hbp

theorem certInv_gradeStep (db : DB) (a : ExamAttemptRow) (attemptId : String)
    (score : Nat) (passed : Bool) (audit : List ExamAnswerRow)
    (cid vid : String) (now : Nat)
    (hfind : db.examAttempts.find? (fun b => b.id == attemptId) = some a)
    (hca : a.completedAt = none) (h : CertInv db) :
    CertInv
      (if passed then
        issueIfEligible
          { db with
              examAttempts := updateFirst (fun b => b.id == attemptId)
                (gradeAttemptRow score passed now) db.examAttempts,
              examAnswers := audit ++ db.examAnswers }
          cid vid a.enrollmentId now
      else
        { db with
            examAttempts := updateFirst (fun b => b.id == attemptId)
              (gradeAttemptRow score passed now) db.examAttempts,
            examAnswers := audit ++ db.examAnswers }) := by
  obtain ⟨h1, h2, h3⟩ := h
  have hap : a.isPassed = none := h2 a (List.mem_of_find?_eq_some hfind) hca
  have h2' := graded_verdictless attemptId score passed now h2
  have hkeep := graded_keep score passed now hfind hap
  cases passed with
  | false =>
    rw [if_neg Bool.false_ne_true]
    refine ⟨h1, h2', ?_⟩
    intro e2
    constructor
    · intro hc
      rcases (h3 e2).mp hc with ⟨b, hb, hbe, hbp⟩
      exact ⟨b, hkeep b hb hbp, hbe, hbp⟩
    · rintro ⟨y, hy, hye, hyp⟩
      rcases mem_updateFirst hy with hmem | ⟨x, hx, rfl⟩
      · exact (h3 e2).mpr ⟨y, hmem, hye, hyp⟩
      · simp [gradeAttemptRow] at hyp
  | true =>
    rw [if_pos rfl]
    unfold issueIfEligible
    dsimp only
    split
    next hcond =>
      refine ⟨h1, h2', ?_⟩
      intro e2
      constructor
      · intro hc
        rcases (h3 e2).mp hc with ⟨b, hb, hbe, hbp⟩
        exact ⟨b, hkeep b hb hbp, hbe, hbp⟩
      · rintro ⟨y, hy, hye, hyp⟩
        rcases mem_updateFirst hy with hmem | ⟨x, hx, rfl⟩
        · exact (h3 e2).mpr ⟨y, hmem, hye, hyp⟩
        · rw [hfind] at hx
          injection hx with hxa
          subst hxa
          rcases certGuard_iff.mp hcond with ⟨c, hc2, hce⟩
          exact ⟨c, hc2, hce.trans hye⟩
    next hcond =>
      split
      next hcondp =>
        have hgf : db.certificates.any (fun c => c.enrollmentId == a.enrollmentId) = false := by
          cases hb : db.certificates.any (fun c => c.enrollmentId == a.enrollmentId)
          · rfl
          · exact absurd hb hcond
        refine ⟨?_, h2', ?_⟩
        · rw [distinctBy_cons, Bool.and_eq_true, Bool.not_eq_true']
          exact ⟨hgf, h1⟩
        · intro e2
          constructor
          · rintro ⟨c, hc, hce⟩
            rcases List.mem_cons.mp hc with rfl | hc2
            · exact ⟨gradeAttemptRow score true now a, find?_updateFirst_mem hfind, hce, rfl⟩
            · rcases (h3 e2).mp ⟨c, hc2, hce⟩ with ⟨b, hb, hbe, hbp⟩
              exact ⟨b, hkeep b hb hbp, hbe, hbp⟩
          · rintro ⟨y, hy, hye, hyp⟩
            rcases mem_updateFirst hy with hmem | ⟨x, hx, rfl⟩
            · rcases (h3 e2).mpr ⟨y, hmem, hye, hyp⟩ with ⟨c, hc, hce⟩
              exact ⟨c, List.mem_cons_of_mem _ hc, hce⟩
            · rw [hfind] at hx
              injection hx with hxa
              subst hxa
              exact ⟨⟨cid, vid, now, a.enrollmentId⟩, List.mem_cons_self _ _, hye⟩
      next hcondp =>
        exact absurd
          (hasPassingAttempt_iff.mpr
            ⟨gradeAttemptRow score true now a, find?_updateFirst_mem hfind, rfl, rfl⟩)
          hcondp

theorem certInv_submitAttempt (db : DB) (attemptId : String)
    (questions : List ExamQuestionRow) (answers : List UserExamAnswer)
    (cid vid : String) (now : Nat) (h : CertInv db) :
    CertInv (submitAttempt db attemptId questions answers cid vid now).1 := by
  rcases hfind : db.examAttempts.find? (fun a => a.id == attemptId) with _ | a
  · simp only [submitAttempt, hfind]
    exact h
  · rcases hca : a.completedAt with _ | t0
    · simp only [submitAttempt, hfind, hca]
      exact certInv_gradeStep db a attemptId _ _ _ cid vid now hfind hca h
    · simp only [submitAttempt, hfind, hca]
      exact h

theorem certInv_reachable {db : DB} (h : Reachable db) : CertInv db := by
  induction h with
  | empty => exact certInv_empty
  | step _ hs ih =>
    cases hs with
    | coursePurchase n u c t => exact certInv_processCoursePurchase _ n u c t ih
    | lessonComplete n e l t => exact certInv_markLessonComplete _ n e l t ih
    | start n e t => exact certInv_startAttempt _ n e t ih
    | submit aId qs ans c v t => exact certInv_submitAttempt _ aId qs ans c v t ih
    | issue n v e t => exact certInv_issueIfEligible _ n v e t ih

theorem findIndexJs_ge {α : Type} (p : α → Bool) (l : List α) :
    -1 ≤ findIndexJs p l := by
  induction l with
  | nil => simp [findIndexJs]
  | cons x xs ih =>
    simp only [findIndexJs]
    split
    · omega
    · split <;> omega

theorem updateAnswer_cons (x : UserExamAnswer) (prev : List UserExamAnswer) (qid oid : String) :
    updateAnswer (x :: prev) qid oid =
      if x.questionId == qid then ⟨qid, oid⟩ :: prev
      else x :: updateAnswer prev qid oid := by
  by_cases hp : (x.questionId == qid) = true
  · simp [updateAnswer, findIndexJs, hp]
  · rw [if_neg hp]
    have hcons : findIndexJs (fun ans => ans.questionId == qid) (x :: prev) =
        (if findIndexJs (fun ans => ans.questionId == qid) prev < 0 then -1
         else findIndexJs (fun ans => ans.questionId == qid) prev + 1) := by
      simp [findIndexJs, hp]
    cases hr : findIndexJs (fun ans => ans.questionId == qid) prev with
    | ofNat n =>
      have hidx : findIndexJs (fun ans => ans.questionId == qid) (x :: prev) = (n : Int) + 1 := by
        rw [hcons, hr, if_neg (by simp)]
        simp
      have h3 : ((n : Int) + 1).toNat = n + 1 := by omega
      have h1 : updateAnswer (x :: prev) qid oid = (x :: prev).set (n + 1) ⟨qid, oid⟩ := by
        simp only [updateAnswer]
        rw [hidx, if_pos (by omega), h3]
      have h2 : updateAnswer prev qid oid = prev.set n ⟨qid, oid⟩ := by
        simp only [updateAnswer]
        rw [hr, if_pos (by omega)]
        simp
      rw [h1, h2]
      rfl
    | negSucc n =>
      have hidx : findIndexJs (fun ans => ans.questionId == qid) (x :: prev) = -1 := by
        rw [hcons, hr, if_pos (Int.negSucc_lt_zero n)]
      have h1 : updateAnswer (x :: prev) qid oid = (x :: prev) ++ [⟨qid, oid⟩] := by
        simp only [updateAnswer]
        rw [hidx, if_neg (by omega)]
      have h2 : updateAnswer prev qid oid = prev ++ [⟨qid, oid⟩] := by
        simp only [updateAnswer]
        rw [hr, if_neg (by omega)]
      rw [h1, h2]
      rfl



theorem updateAnswer_nil (qid oid : String) :
    updateAnswer [] qid oid = [⟨qid, oid⟩] := rfl

theorem mem_updateAnswer {prev : List UserExamAnswer} {qid oid : String} {y : UserExamAnswer}
    (hy : y ∈ updateAnswer prev qid oid) : y ∈ prev ∨ y = ⟨qid, oid⟩ := by
  induction prev with
  | nil =>
    rw [updateAnswer_nil] at hy
    rcases List.mem_cons.mp hy with rfl | h
    · exact Or.inr rfl
    · simp at h
  | cons x xs ih =>
    rw [updateAnswer_cons] at hy
    by_cases hp : (x.questionId == qid) = true
    · rw [if_pos hp] at hy
      rcases List.mem_cons.mp hy with rfl | h
      · exact Or.inr rfl
      · exact Or.inl (List.mem_cons_of_mem _ h)
    · rw [if_neg hp] at hy
      rcases List.mem_cons.mp hy with rfl | h
      · exact Or.inl (List.mem_cons_self _ _)
      · rcases ih h with h2 | h2
        · exact Or.inl (List.mem_cons_of_mem _ h2)
        · exact Or.inr h2

theorem updateAnswer_distinct {prev : List UserExamAnswer} {qid oid : String}
    (h : distinctBy (fun a => a.questionId) prev = true) :
    distinctBy (fun a => a.questionId) (updateAnswer prev qid oid) = true := by
  induction prev with
  | nil => rw [updateAnswer_nil]; rfl
  | cons x xs ih =>
    rw [distinctBy_cons, Bool.and_eq_true, Bool.not_eq_true'] at h
    obtain ⟨hany, hd⟩ := h
    rw [updateAnswer_cons]
    by_cases hp : (x.questionId == qid) = true
    · rw [if_pos hp, distinctBy_cons, Bool.and_eq_true, Bool.not_eq_true']
      have hk : x.questionId = qid := eq_of_beq hp
      rw [hk] at hany
      exact ⟨hany, hd⟩
    · rw [if_neg hp, distinctBy_cons, Bool.and_eq_true, Bool.not_eq_true']
      refine ⟨?_, ih hd⟩
      rw [List.any_eq_false]
      intro y hy
      rcases mem_updateAnswer hy with h2 | rfl
      · exact (List.any_eq_false.mp hany) y h2
      · intro hcon
        exact hp (beq_iff_eq.mpr (eq_of_beq hcon).symm)
  
theorem updateAnswer_length {prev : List UserExamAnswer} {qid oid : String}
    (h : ∃ a ∈ prev, a.questionId = qid) :
    (updateAnswer prev qid oid).length = prev.length := by
  induction prev with
  | nil => simp at h
  | cons x xs ih =>
    rw [updateAnswer_cons]
    by_cases hp : (x.questionId == qid) = true
    · rw [if_pos hp]
      rfl
    · rw [if_neg hp]
      rcases h with ⟨a, ha, haq⟩
      rcases List.mem_cons.mp ha with rfl | ha2
      · exact absurd (beq_iff_eq.mpr haq) hp
      · simp [List.length_cons, ih ⟨a, ha2, haq⟩]

theorem wf_enrollment_pairs {db : DB} (h : DB.wf db = true) :
    distinctBy (fun r => (r.userId, r.courseId)) db.enrollments = true := by
  simp only [DB.wf, Bool.and_eq_true] at h
  tauto

theorem wf_lessonProgress_pairs {db : DB} (h : DB.wf db = true) :
    distinctBy (fun r => (r.enrollmentId, r.lessonId)) db.lessonProgress = true := by
  simp only [DB.wf, Bool.and_eq_true] at h
  tauto

theorem executeTransactionGo_eq {T : Type} (trial : Nat → Except String T)
    (maxRetries i fuel : Nat) :
    executeTransactionGo trial maxRetries i fuel =
      match trial i with
      | .ok v => .ok v
      | .error e =>
        match fuel with
        | 0 => .error e
        | fuel' + 1 =>
          if isRetryable e && i + 1 < maxRetries then
            executeTransactionGo trial maxRetries (i + 1) fuel'
          else
            .error e := by
  rw [executeTransactionGo]

theorem executeTransactionGo_error_spec {T : Type} {trial : Nat → Except String T}
    {maxRetries : Nat} :
    ∀ (fuel : Nat) (i : Nat) (e : String),
      executeTransactionGo trial maxRetries i fuel = .error e →
      ∃ j, (j = i ∨ j < maxRetries) ∧ trial j = .error e := by
  intro fuel
  induction fuel with
  | zero =>
    intro i e h
    rw [executeTransactionGo_eq] at h
    rcases ht : trial i with e2 | v <;> simp only [ht] at h
    · injection h with he
      subst he
      exact ⟨i, Or.inl rfl, ht⟩
    · exact Except.noConfusion h
  | succ fuel ih =>
    intro i e h
    rw [executeTransactionGo_eq] at h
    rcases ht : trial i with e2 | v <;> simp only [ht] at h
    · by_cases hc : (isRetryable e2 && decide (i + 1 < maxRetries)) = true
      · rw [if_pos hc] at h
        rcases ih (i + 1) e h with ⟨j, hj, htj⟩
        refine ⟨j, Or.inr ?_, htj⟩
        rcases hj with rfl | hj2
        · have hc2 : isRetryable e2 = true ∧ i + 1 < maxRetries := by simpa using hc
          exact hc2.2
        · exact hj2
      · rw [if_neg hc] at h
        injection h with he
        subst he
        exact ⟨i, Or.inl rfl, ht⟩
    · exact Except.noConfusion h

theorem executeTransactionGo_congr {T : Type} {trial trial2 : Nat → Except String T}
    {maxRetries : Nat}
    (heq : ∀ j, j < max 1 maxRetries → trial j = trial2 j) :
    ∀ (fuel : Nat) (i : Nat), i < max 1 maxRetries →
      executeTransactionGo trial maxRetries i fuel
        = executeTransactionGo trial2 maxRetries i fuel := by
  intro fuel
  induction fuel with
  | zero =>
    intro i hi
    have ht2 : trial2 i = trial i := (heq i hi).symm
    rw [executeTransactionGo_eq, executeTransactionGo_eq, ht2]
  | succ fuel ih =>
    intro i hi
    have ht2 : trial2 i = trial i := (heq i hi).symm
    rw [executeTransactionGo_eq, executeTransactionGo_eq, ht2]
    rcases ht : trial i with e | v <;> simp only [ht]
    · by_cases hc : (isRetryable e && decide (i + 1 < maxRetries)) = true
      · rw [if_pos hc, if_pos hc]
        have hc2 : isRetryable e = true ∧ i + 1 < maxRetries := by simpa using hc
        have hlt : i + 1 < maxRetries := hc2.2
        exact ih (i + 1) (lt_of_lt_of_le hlt (le_max_right 1 maxRetries))
      · rw [if_neg hc, if_neg hc]

theorem executeTransaction_nonretryable {T : Type} {trial : Nat → Except String T}
    {maxRetries : Nat} {e : String}
    (h0 : trial 0 = .error e) (hnr : isRetryable e = false) :
    executeTransaction trial maxRetries = .error e := by
  rw [executeTransaction, executeTransactionGo_eq, h0]
  cases maxRetries with
  | zero => rfl
  | succ m =>
    simp only []
    rw [if_neg]
    simp [hnr]

theorem issueIfEligible_idem (db : DB) (n v e : String) (t : Nat)
    (n2 v2 : String) (t2 : Nat) :
    issueIfEligible (issueIfEligible db n v e t) n2 v2 e t2
      = issueIfEligible db n v e t := by
  by_cases hg : db.certificates.any (fun c => c.enrollmentId == e) = true
  · have h1 : issueIfEligible db n v e t = db := by
      rw [issueIfEligible, if_pos hg]
    rw [h1, issueIfEligible, if_pos hg]
  · by_cases hp : hasPassingAttempt db e = true
    · have h1 : issueIfEligible db n v e t
          = { db with certificates := ⟨n, v, t, e⟩ :: db.certificates } := by
        rw [issueIfEligible, if_neg hg, if_pos hp]
      have hg2 : ({ db with certificates := ⟨n, v, t, e⟩ :: db.certificates } : DB).certificates.any
          (fun c => c.enrollmentId == e) = true := by
        simp [List.any_cons]
      rw [h1, issueIfEligible, if_pos hg2]
    · have h1 : issueIfEligible db n v e t = db := by
        rw [issueIfEligible, if_neg hg, if_neg hp]
      rw [h1, issueIfEligible, if_neg hg, if_neg hp]

theorem processCoursePurchase_guard (db : DB) (id userId courseId : String) (t : Nat) :
    (processCoursePurchase db id userId courseId t).1.enrollments.any
      (fun e => e.userId == userId && e.courseId == courseId) = true := by
  by_cases hg : db.enrollments.any (fun e => e.userId == userId && e.courseId == courseId) = true
  · rw [processCoursePurchase, if_pos hg]
    exact hg
  · rw [processCoursePurchase, if_neg hg]
    simp [List.any_cons]

theorem c2Db_reachable : Reachable c2Db :=
  Reachable.step
    (Reachable.step
      (Reachable.step Reachable.empty
        (Step.coursePurchase DB.empty "enr1" "user1" "course1" 0))
      (Step.start _ "att1" "enr1" 1))
    (Step.submit _ "att1" [c7Question] [⟨"q1", "A"⟩] "cert1" "VERIFY1" 2)

/-! ## Claim theorems -/

/-- C1 counterexample: the claim anchors idempotent payment processing
in a PaymentEventRecord model unique on externalEventId, but
`src/schema.prisma` declares no PaymentEventRecord model at all. -/
theorem claim_C1_counterexample : ¬ (hasModel "PaymentEventRecord" = true) := by
  decide

/-- C1 (amended): there is no PaymentEventRecord dedupe ledger in the
schema, so no `duplicate` outcome can be recorded; what does hold is
that reprocessing the same course purchase is a state no-op — the
second call creates no second Enrollment and returns `rejected`
(already enrolled), backed by the unique constraint on
Enrollment (userId, courseId). -/
theorem claim_C1_amended (db : DB) (id1 id2 userId courseId : String) (t1 t2 : Nat) :
    hasModel "PaymentEventRecord" = false
    ∧ modelHasUnique "Enrollment" ["userId", "courseId"] = true
    ∧ processCoursePurchase (processCoursePurchase db id1 userId courseId t1).1
        id2 userId courseId t2
      = ((processCoursePurchase db id1 userId courseId t1).1, Outcome.rejected) := by
  refine ⟨rfl, rfl, ?_⟩
  have key : ∀ db2 : DB,
      db2.enrollments.any (fun e => e.userId == userId && e.courseId == courseId) = true →
      processCoursePurchase db2 id2 userId courseId t2 = (db2, Outcome.rejected) := by
    intro db2 hg2
    rw [processCoursePurchase, if_pos hg2]
  exact key _ (processCoursePurchase_guard db id1 userId courseId t1)

/-- C2: over every reachable ledger state, at most one Certificate row
exists per enrollment (backed by the unique constraint on
Certificate.enrollmentId), a certificate exists for an enrollment
exactly when some ExamAttempt of that enrollment has passed, and
repeated issuance calls are idempotent on the state. -/
theorem claim_C2 (db : DB) (h : Reachable db) :
    modelHasUnique "Certificate" ["enrollmentId"] = true
    ∧ (∀ e, countMatching (fun c => c.enrollmentId == e) db.certificates ≤ 1)
    ∧ (∀ e, (∃ c ∈ db.certificates, c.enrollmentId = e)
        ↔ ∃ a ∈ db.examAttempts, a.enrollmentId = e ∧ a.isPassed = some true)
    ∧ (∀ n v e t n2 v2 t2, issueIfEligible (issueIfEligible db n v e t) n2 v2 e t2
        = issueIfEligible db n v e t) := by
  obtain ⟨h1, _h2, h3⟩ := certInv_reachable h
  refine ⟨rfl, ?_, h3, ?_⟩
  · intro e
    exact distinctBy_count_le_one h1 e
  · intro n v e t n2 v2 t2
    exact issueIfEligible_idem db n v e t n2 v2 t2

/-- C2 witness: a concrete run — course purchase, attempt start, fully
correct submission — reaches a state with exactly one certificate, and
the theorem applies to it. -/
theorem claim_C2_witness :
    c2Db.certificates.length = 1
    ∧ (∀ e, countMatching (fun c => c.enrollmentId == e) c2Db.certificates ≤ 1)
    ∧ (∀ e, (∃ c ∈ c2Db.certificates, c.enrollmentId = e)
        ↔ ∃ a ∈ c2Db.examAttempts, a.enrollmentId = e ∧ a.isPassed = some true) :=
  ⟨by decide, (claim_C2 c2Db c2Db_reachable).2.1, (claim_C2 c2Db c2Db_reachable).2.2.1⟩

/-- C3: grading is exactly-once — when a first `submitAttempt` call
graded the attempt (conditional update of completedAt from null), a
second call with possibly different answers leaves the state unchanged
(the stored score in particular) and returns the already-submitted
signal. -/
theorem claim_C3 (db : DB) (attemptId : String)
    (qs1 : List ExamQuestionRow) (ans1 : List UserExamAnswer)
    (qs2 : List ExamQuestionRow) (ans2 : List UserExamAnswer)
    (c1 v1 c2 v2 : String) (t1 t2 : Nat) (s : Nat) (p : Bool)
    (h : (submitAttempt db attemptId qs1 ans1 c1 v1 t1).2 = SubmitResult.graded s p) :
    submitAttempt (submitAttempt db attemptId qs1 ans1 c1 v1 t1).1 attemptId qs2 ans2 c2 v2 t2
      = ((submitAttempt db attemptId qs1 ans1 c1 v1 t1).1, SubmitResult.alreadySubmitted) := by
  rcases hfind : db.examAttempts.find? (fun a => a.id == attemptId) with _ | a
  · simp only [submitAttempt, hfind] at h
    exact SubmitResult.noConfusion h
  · rcases hca : a.completedAt with _ | t0
    · have hpa := List.find?_some hfind
      have hattempts : (submitAttempt db attemptId qs1 ans1 c1 v1 t1).1.examAttempts
          = updateFirst (fun b => b.id == attemptId)
              (gradeAttemptRow (computeScore qs1.length (correctCount qs1 ans1))
                (isPassing (computeScore qs1.length (correctCount qs1 ans1))) t1)
              db.examAttempts := by
        simp only [submitAttempt, hfind, hca]
        by_cases hpass : isPassing (computeScore qs1.length (correctCount qs1 ans1)) = true
        · rw [if_pos hpass, issueIfEligible_examAttempts]
        · rw [if_neg hpass]
      have hfind2 : (submitAttempt db attemptId qs1 ans1 c1 v1 t1).1.examAttempts.find?
            (fun b => b.id == attemptId)
          = some (gradeAttemptRow (computeScore qs1.length (correctCount qs1 ans1))
              (isPassing (computeScore qs1.length (correctCount qs1 ans1))) t1 a) := by
        rw [hattempts]
        exact find?_updateFirst hfind hpa
      generalize hS : (submitAttempt db attemptId qs1 ans1 c1 v1 t1).1 = S at hfind2 ⊢
      simp only [submitAttempt, hfind2, gradeAttemptRow]
    · simp only [submitAttempt, hfind, hca] at h
      exact SubmitResult.noConfusion h

/-- C3 witness: a concrete open attempt graded once (score 100,
passed); the repeated call is a no-op returning already-submitted. -/
theorem claim_C3_witness :
    (submitAttempt c3Db "att1" [c7Question] [⟨"q1", "A"⟩] "cert1" "v1" 5).2
        = SubmitResult.graded 100 true
    ∧ submitAttempt (submitAttempt c3Db "att1" [c7Question] [⟨"q1", "A"⟩] "cert1" "v1" 5).1
          "att1" [] [] "cert2" "v2" 6
        = ((submitAttempt c3Db "att1" [c7Question] [⟨"q1", "A"⟩] "cert1" "v1" 5).1,
            SubmitResult.alreadySubmitted) :=
  ⟨by decide,
   claim_C3 c3Db "att1" [c7Question] [⟨"q1", "A"⟩] [] [] "cert1" "v1" "cert2" "v2" 5 6 100 true
     (by decide)⟩

/-- C4 (code bug): the repository intends voucher-bounded extra
attempts (its own client types declare attemptNumber and ExamVoucher,
and `checkVoucherPurchaseEligibility` gates purchases on the base quota
of 2), but `src/schema.prisma` declares no Voucher model and stores
neither attemptNumber nor a voucher reference on ExamAttempt — so a
state with three attempts and no voucher, shown here, satisfies every
schema constraint and the claimed invariant is unenforceable. -/
theorem claim_C4_code_bug :
    DB.wf c4FailingDb = true
    ∧ countMatching (fun a => a.enrollmentId == "enr1") c4FailingDb.examAttempts = 3
    ∧ countMatching (fun a => a.enrollmentId == "enr1" && a.isPurchased)
        c4FailingDb.examAttempts = 0
    ∧ hasModel "Voucher" = false
    ∧ modelHasField "ExamAttempt" "attemptNumber" = false
    ∧ modelHasField "ExamAttempt" "voucherId" = false
    ∧ checkVoucherPurchaseEligibility (some ⟨true, true, some 2, none⟩) = true := by
  decide

/-- C5: grading counts a question with no matching answer as incorrect,
is bounded by the question count, computes the floor of
100 × correct / total (characterized by the division inequalities), and
passes exactly at score 80 and above; on the concrete 100-question bank
with 82 correct answers the score is 82 and the attempt passes. -/
theorem claim_C5 :
    (∀ (questions : List ExamQuestionRow) (answers : List UserExamAnswer),
      (∀ q ∈ questions, (∀ a ∈ answers, a.questionId ≠ q.id) →
          isAnswerCorrect q answers = false)
      ∧ correctCount questions answers ≤ questions.length
      ∧ (questions.length ≠ 0 →
          computeScore questions.length (correctCount questions answers) * questions.length
              ≤ 100 * correctCount questions answers
          ∧ 100 * correctCount questions answers
              < (computeScore questions.length (correctCount questions answers) + 1)
                  * questions.length)
      ∧ (∀ s, isPassing s = true ↔ 80 ≤ s))
    ∧ c5Questions.length = 100
    ∧ correctCount c5Questions c5Answers = 82
    ∧ computeScore 100 82 = 82
    ∧ isPassing 82 = true := by
  constructor
  · intro questions answers
    refine ⟨?_, ?_, ?_, ?_⟩
    · intro q hq hn
      have hnone : answers.find? (fun a => a.questionId == q.id) = none := by
        rw [List.find?_eq_none]
        intro a ha
        simp [hn a ha]
      simp [isAnswerCorrect, answerFor, hnone]
    · exact List.length_filter_le _ _
    · intro ht
      have hpos : 0 < questions.length := Nat.pos_of_ne_zero ht
      constructor
      · exact Nat.div_mul_le_self _ _
      · have hmlt : (100 * correctCount questions answers) % questions.length
            < questions.length := Nat.mod_lt _ hpos
        simp only [computeScore]
        calc 100 * correctCount questions answers
            = questions.length * (100 * correctCount questions answers / questions.length)
              + 100 * correctCount questions answers % questions.length :=
              (Nat.div_add_mod _ _).symm
          _ < questions.length * (100 * correctCount questions answers / questions.length)
              + questions.length := Nat.add_lt_add_left hmlt _
          _ = (100 * correctCount questions answers / questions.length + 1)
              * questions.length := by ring
    · intro s
      simp [isPassing]
  · exact ⟨by decide, by decide, by decide, by decide⟩

/-- C5 witness: the last bank question receives no answer and is graded
incorrect rather than erroring, and the passing rule applied at the
scenario score 82 yields passed. -/
theorem claim_C5_witness :
    c5LastQuestion ∈ c5Questions
    ∧ isAnswerCorrect c5LastQuestion c5Answers = false
    ∧ isPassing 82 = true :=
  ⟨by decide,
   (claim_C5.1 c5Questions c5Answers).1 c5LastQuestion (by decide) (by decide),
   ((claim_C5.1 [] []).2.2.2 82).mpr (by decide)⟩

/-- C6 counterexample: the claim says every Enrollment record carries a
status field; the Enrollment model of `src/schema.prisma` has no status
column. -/
theorem claim_C6_counterexample : ¬ (modelHasField "Enrollment" "status" = true) := by
  decide

/-- C6 (amended): the four-valued status lives on the client-side
Enrollment type (src/types/enrollment.ts), not on the persisted model;
the schema constrains (userId, courseId) to be unique, so at most one
enrollment — a fortiori at most one active one — exists per pair. -/
theorem claim_C6_amended (db : DB) (hwf : DB.wf db = true) (u c : String) :
    (∀ s : EnrollmentStatus,
      s = EnrollmentStatus.active ∨ s = EnrollmentStatus.completed
        ∨ s = EnrollmentStatus.cancelled ∨ s = EnrollmentStatus.expired)
    ∧ modelHasUnique "Enrollment" ["userId", "courseId"] = true
    ∧ countMatching (fun e => (e.userId, e.courseId) == (u, c)) db.enrollments ≤ 1 := by
  refine ⟨?_, rfl, ?_⟩
  · intro s
    cases s
    · exact Or.inl rfl
    · exact Or.inr (Or.inl rfl)
    · exact Or.inr (Or.inr (Or.inl rfl))
    · exact Or.inr (Or.inr (Or.inr rfl))
  · exact distinctBy_count_le_one (wf_enrollment_pairs hwf) (u, c)

/-- C6 witness: the amended statement evaluated on a concrete
well-formed state. -/
theorem claim_C6_witness :
    DB.wf c4FailingDb = true
    ∧ countMatching (fun e => (e.userId, e.courseId) == ("user1", "course1"))
        c4FailingDb.enrollments ≤ 1 :=
  ⟨by decide, (claim_C6_amended c4FailingDb (by decide) "user1" "course1").2.2⟩

/-- C7 (code bug): the spec freezes the question set and options into
the attempt row at creation, but ExamAttempt has no such column; the
questions of a historical attempt can only be re-derived by joining its
ExamAnswer rows against the live ExamQuestion table, and the course
re-import path of `src/metadata.ts` (deleteMany + recreate, cascading
into ExamAnswer) changes that derived set for an existing attempt while
the attempt row itself is untouched. -/
theorem claim_C7_code_bug :
    modelHasField "ExamAttempt" "frozenQuestionSet" = false
    ∧ modelFields "ExamAttempt"
        = ["id", "startedAt", "completedAt", "score", "isPassed", "isPurchased", "enrollmentId"]
    ∧ attemptQuestionView c7Db "att1" = [c7Question]
    ∧ (reseedCourseQuestions c7Db "course1" [c7NewQuestion]).examAttempts = c7Db.examAttempts
    ∧ attemptQuestionView (reseedCourseQuestions c7Db "course1" [c7NewQuestion]) "att1" = []
    ∧ (reseedCourseQuestions c7Db "course1" [c7NewQuestion]).examQuestions = [c7NewQuestion] := by
  decide

/-- C8: marking a lesson complete is idempotent — the repeated call for
the same (enrollmentId, lessonId) is a no-op rather than an error, and
on a well-formed state exactly one LessonProgress row for the pair
remains, with the completedAt written by the first call; the pair is
the unique key the schema declares. -/
theorem claim_C8 (db : DB) (id1 id2 enrollmentId lessonId : String) (t1 t2 : Nat)
    (hwf : DB.wf db = true) :
    modelHasUnique "LessonProgress" ["enrollmentId", "lessonId"] = true
    ∧ markLessonComplete (markLessonComplete db id1 enrollmentId lessonId t1)
        id2 enrollmentId lessonId t2
      = markLessonComplete db id1 enrollmentId lessonId t1
    ∧ countMatching (fun r => (r.enrollmentId, r.lessonId) == (enrollmentId, lessonId))
        (markLessonComplete db id1 enrollmentId lessonId t1).lessonProgress = 1 := by
  by_cases hP : db.lessonProgress.any
      (fun r => r.enrollmentId == enrollmentId && r.lessonId == lessonId) = true
  · have h1 : markLessonComplete db id1 enrollmentId lessonId t1 = db := by
      rw [markLessonComplete, if_pos hP]
    refine ⟨rfl, ?_, ?_⟩
    · rw [h1, markLessonComplete, if_pos hP]
    · rw [h1]
      have hle := distinctBy_count_le_one (wf_lessonProgress_pairs hwf) (enrollmentId, lessonId)
      have hge : 1 ≤ countMatching
          (fun r : LessonProgressRow => (r.enrollmentId, r.lessonId) == (enrollmentId, lessonId))
          db.lessonProgress :=
        countMatching_pos hP
      omega
  · have h1 : markLessonComplete db id1 enrollmentId lessonId t1
        = { db with lessonProgress :=
              ⟨id1, t1, enrollmentId, lessonId⟩ :: db.lessonProgress } := by
      rw [markLessonComplete, if_neg hP]
    refine ⟨rfl, ?_, ?_⟩
    · have hP2 : ({ db with lessonProgress :=
            ⟨id1, t1, enrollmentId, lessonId⟩ :: db.lessonProgress } : DB).lessonProgress.any
          (fun r => r.enrollmentId == enrollmentId && r.lessonId == lessonId) = true := by
        simp [List.any_cons]
      rw [h1, markLessonComplete, if_pos hP2]
    · rw [h1]
      have hP0 : db.lessonProgress.any
          (fun r => (r.enrollmentId, r.lessonId) == (enrollmentId, lessonId)) = false := by
        cases hx : db.lessonProgress.any
            (fun r => (r.enrollmentId, r.lessonId) == (enrollmentId, lessonId))
        · rfl
        · exact absurd hx hP
      rw [countMatching_cons, if_pos (by simp), countMatching_eq_zero hP0]

/-- C8 witness: two calls on the empty ledger leave one row with the
first completedAt. -/
theorem claim_C8_witness :
    DB.wf DB.empty = true
    ∧ markLessonComplete (markLessonComplete DB.empty "lp1" "enr1" "les1" 5)
        "lp2" "enr1" "les1" 9
      = markLessonComplete DB.empty "lp1" "enr1" "les1" 5
    ∧ countMatching (fun r => (r.enrollmentId, r.lessonId) == ("enr1", "les1"))
        (markLessonComplete DB.empty "lp1" "enr1" "les1" 5).lessonProgress = 1 :=
  ⟨by decide,
   (claim_C8 DB.empty "lp1" "lp2" "enr1" "les1" 5 9 (by decide)).2.1,
   (claim_C8 DB.empty "lp1" "lp2" "enr1" "les1" 5 9 (by decide)).2.2⟩

/-- C9: the transaction helper retries only on the transient codes
P1001, P1002, P1008 and P1017; any error it rethrows is one of the
original trial errors, unchanged (never converted to another error); a
non-retryable first error is rethrown immediately; and the outcome
depends on at most max 1 maxRetries trials. -/
theorem claim_C9 {T : Type} (trial : Nat → Except String T) (maxRetries : Nat) :
    (∀ c, isRetryable c = true ↔ c ∈ retryableCodes)
    ∧ (∀ e, executeTransaction trial maxRetries = Except.error e →
        ∃ i, (i = 0 ∨ i < maxRetries) ∧ trial i = Except.error e)
    ∧ (∀ e, trial 0 = Except.error e → isRetryable e = false →
        executeTransaction trial maxRetries = Except.error e)
    ∧ (∀ trial2 : Nat → Except String T,
        (∀ i, i < max 1 maxRetries → trial i = trial2 i) →
        executeTransaction trial maxRetries = executeTransaction trial2 maxRetries) := by
  refine ⟨?_, ?_, ?_, ?_⟩
  · intro c
    simp [isRetryable, retryableCodes, or_assoc]
  · intro e h
    exact executeTransactionGo_error_spec maxRetries 0 e h
  · intro e h0 hnr
    exact executeTransaction_nonretryable h0 hnr
  · intro trial2 heq
    exact executeTransactionGo_congr heq maxRetries 0
      (Nat.lt_of_lt_of_le Nat.one_pos (le_max_left 1 maxRetries))

/-- C9 witness: a P2002 unique-constraint error (non-retryable) on the
first trial is rethrown unchanged. -/
theorem claim_C9_witness :
    executeTransaction
        (fun i => if i = 0 then (Except.error "P2002" : Except String Nat) else Except.ok 7) 3
      = Except.error "P2002"
    ∧ (isRetryable "P2002" = true ↔ "P2002" ∈ retryableCodes) :=
  ⟨(claim_C9 (fun i => if i = 0 then (Except.error "P2002" : Except String Nat)
      else Except.ok 7) 3).2.2.1 "P2002" rfl rfl,
   (claim_C9 (fun i => if i = 0 then (Except.error "P2002" : Except String Nat)
      else Except.ok 7) 3).1 "P2002"⟩

/-- C10: the ExamAnswer table is unique on (examAttemptId, questionId),
and the client updateAnswer keeps at most one in-memory answer per
questionId — replacing the existing entry (same length) instead of
appending a duplicate. -/
theorem claim_C10 (prev : List UserExamAnswer) (qid oid : String)
    (h : distinctBy (fun a => a.questionId) prev = true) :
    modelHasUnique "ExamAnswer" ["examAttemptId", "questionId"] = true
    ∧ distinctBy (fun a => a.questionId) (updateAnswer prev qid oid) = true
    ∧ ((∃ a ∈ prev, a.questionId = qid) →
        (updateAnswer prev qid oid).length = prev.length) :=
  ⟨rfl, updateAnswer_distinct h, fun hx => updateAnswer_length hx⟩

/-- C10 witness: re-answering q1 replaces the stored answer and keeps
one entry per question. -/
theorem claim_C10_witness :
    distinctBy (fun a : UserExamAnswer => a.questionId)
        (updateAnswer [⟨"q1", "A"⟩, ⟨"q2", "B"⟩] "q1" "C") = true
    ∧ (updateAnswer [⟨"q1", "A"⟩, ⟨"q2", "B"⟩] "q1" "C").length
        = ([⟨"q1", "A"⟩, ⟨"q2", "B"⟩] : List UserExamAnswer).length :=
  ⟨(claim_C10 [⟨"q1", "A"⟩, ⟨"q2", "B"⟩] "q1" "C" (by decide)).2.1,
   (claim_C10 [⟨"q1", "A"⟩, ⟨"q2", "B"⟩] "q1" "C" (by decide)).2.2
     ⟨⟨"q1", "A"⟩, by decide, rfl⟩⟩

end Zipped
